import Mathlib

/-!
Verification of the Ambient deterministic composition engine and its
rendering scheduler.

The development shallowly embeds the TypeScript sources
(`producer.ts` / `producer_presets.ts` as found in the repository sources,
`helper.ts`, `samples.ts`, `track.ts`, `creator.ts`) into Lean.

JavaScript numbers are modelled as rationals (`ℚ`); the composition path
performs only arithmetic for which floating point and rational semantics
agree on the properties stated here.  `Math.sin` is modelled as an
abstract parameter `sin : ℚ → ℚ` (a fixed deterministic function), and
the unseeded system randomness `Math.random` as an explicit oracle
`r : ℕ → ℚ` threaded to every function that, per the source, may invoke
it.  Pitches are modelled by their MIDI numbers (the sources convert
note names through MIDI in `octShift`, and `InstrumentNote` normalises
spellings via `Tonal.Note.simplify`, so MIDI numbers are a faithful key
for equality of produced tracks); the JavaScript `undefined` pitch that
arises from out-of-range indexing is modelled by `Option`.
-/

namespace Ambient

/-! ### JavaScript numeric primitives -/

/-- `Math.floor` on a JS number. -/
def jsFloor (q : ℚ) : ℤ := ⌊q⌋

/-- `Math.round` on a JS number: ties round up. -/
def jsRound (q : ℚ) : ℤ := ⌊q + 1/2⌋

/-- `Math.ceil` on a JS number. -/
def jsCeil (q : ℚ) : ℤ := ⌈q⌉

/-- The JS `%` operator on integers: remainder of truncating division
(sign of the dividend). -/
def jsRem (a b : ℤ) : ℤ := Int.tmod a b

/-- `Math.floor(a / b)` for integers `a b`, as used by `mapNote`. -/
def jsFdiv (a b : ℤ) : ℤ := Int.fdiv a b

/-- Fractional part, `x - Math.floor(x)`. -/
def jsFrac (q : ℚ) : ℚ := q - ⌊q⌋

/-- JS array indexing `l[i]` with an integer index: `undefined`
(modelled as `none`) when the index is out of bounds. -/
def listGetZ {α : Type} (l : List α) (i : ℤ) : Option α :=
  if h : 0 ≤ i ∧ i.toNat < l.length then some (l.get ⟨i.toNat, h.2⟩) else none

/-! ### `helper.ts` : seeded pseudo-randomness -/

/-- `randomFromInterval` from `helper.ts`.  With a seed it is a pure
function of the seed (through `Math.sin`); without a seed it consumes
the unseeded system randomness `sys`. -/
def randomFromInterval (sin : ℚ → ℚ) (lo hi : ℤ) (seed : Option ℚ) (sys : ℚ) : ℤ :=
  match seed with
  | some s => jsFloor (jsFrac (sin s * 10000) * ((hi : ℚ) - lo + 1)) + lo
  | none => jsFloor (sys * ((hi : ℚ) - lo + 1)) + lo

/-- `random` from `helper.ts`: seeded quasi-random number in `[0,1)`. -/
def randomQ (sin : ℚ → ℚ) (seed : ℚ) : ℚ := jsFrac (sin seed * 10000)

/-- `randomColor` from `helper.ts`, modelled by the hue it computes
(the produced string is `hsl(hue, 70%, 80%)`). -/
def randomColorHue (sin : ℚ → ℚ) (seed : ℚ) : ℚ := randomQ sin seed * 360

/-- `mapNote` from `helper.ts`: maps a note number to a scale degree
index (JS `note % 7`) and an octave (`Math.floor(note / 7)`). -/
def mapNote (note : ℤ) : ℤ × ℤ := (jsRem note 7, jsFdiv note 7)

/-! ### Model of the `@tonaljs/tonal` pitch-class algebra

Pitch classes are a letter (0 = C … 6 = B) plus an alteration (sharps
positive, flats negative), exactly Tonal's representation. -/

/-- A pitch class: letter index and alteration. -/
structure Pc where
  letter : ℕ
  alt : ℤ
deriving DecidableEq, Repr

/-- Chromatic position of each natural letter C D E F G A B. -/
def letterChroma (L : ℕ) : ℤ := [0, 2, 4, 5, 7, 9, 11].getD L 0

/-- Position of each natural letter in the circle of fifths. -/
def letterFifths (L : ℕ) : ℤ := [0, 2, 4, -1, 1, 3, 5].getD L 0

/-- Letter names. -/
def letterName (L : ℕ) : String := ["C", "D", "E", "F", "G", "A", "B"].getD L ""

/-- Chromatic position of a pitch class (may leave `[0,11]` for
spellings such as B# or Cb, exactly as in Tonal). -/
def Pc.chroma (p : Pc) : ℤ := letterChroma p.letter + p.alt

/-- Circle-of-fifths position of a pitch class. -/
def Pc.fifths (p : Pc) : ℤ := letterFifths p.letter + 7 * p.alt

/-- Printed name of a pitch class, e.g. `"C#"`, `"Ab"`. -/
def Pc.name (p : Pc) : String :=
  letterName p.letter ++
    (if 0 ≤ p.alt then String.join (List.replicate p.alt.toNat "#")
     else String.join (List.replicate (-p.alt).toNat "b"))

/-- `Tonal.Note.enharmonic` without a destination name: sharps move to
the next letter, flats to the previous letter, naturals are unchanged. -/
def enharmonic (p : Pc) : Pc :=
  if 0 < p.alt then
    let L := (p.letter + 1) % 7
    let adj : ℤ := if p.letter = 6 then 12 else 0
    ⟨L, p.chroma - letterChroma L - adj⟩
  else if p.alt < 0 then
    let L := (p.letter + 6) % 7
    let adj : ℤ := if p.letter = 0 then -12 else 0
    ⟨L, p.chroma - letterChroma L - adj⟩
  else p

/-- Number of accidentals in `Tonal.Key.majorKey(p).keySignature`: the
absolute circle-of-fifths distance from C. -/
def majorSigLen (p : Pc) : ℕ := p.fifths.natAbs

/-- Number of accidentals in `Tonal.Key.minorKey(p).keySignature`: the
relative major lies three fifths up. -/
def minorSigLen (p : Pc) : ℕ := (p.fifths - 3).natAbs

/-- `keyNumberToString` from `helper.ts`: key 1–12 maps to a fixed
pitch-class table, anything else falls back to `'C'` (the JS `|| 'C'`). -/
def keyNumberToString (key : ℤ) : Pc :=
  (listGetZ [⟨0, 0⟩, ⟨0, 1⟩, ⟨1, 0⟩, ⟨1, 1⟩, ⟨2, 0⟩, ⟨3, 0⟩, ⟨3, 1⟩,
             ⟨4, 0⟩, ⟨4, 1⟩, ⟨5, 0⟩, ⟨5, 1⟩, ⟨6, 0⟩] (key - 1)).getD ⟨0, 0⟩

/-! #### Modes -/

/-- The named diatonic modes (`Tonal.Mode.names()`), plus the two
common labels `major`/`minor` that key-signature simplification
introduces (Tonal aliases of ionian and aeolian). -/
inductive ModeV
  | ionian | dorian | phrygian | lydian | mixolydian | aeolian | locrian
  | major | minor
deriving DecidableEq, Repr

/-- `Tonal.Mode.names()` in order; `params.mode - 1` indexes this. -/
def modeNames : List ModeV :=
  [.ionian, .dorian, .phrygian, .lydian, .mixolydian, .aeolian, .locrian]

/-- Rotation of the major scale generating each mode. -/
def ModeV.rotation : ModeV → ℕ
  | .ionian => 0 | .dorian => 1 | .phrygian => 2 | .lydian => 3
  | .mixolydian => 4 | .aeolian => 5 | .locrian => 6
  | .major => 0 | .minor => 5

/-- Semitone steps of the major scale. -/
def majorSteps : List ℤ := [0, 2, 4, 5, 7, 9, 11]

/-- Semitone offsets of a mode's seven degrees above its tonic. -/
def ModeV.steps (m : ModeV) : List ℤ :=
  (List.range 7).map fun j =>
    (majorSteps.getD ((m.rotation + j) % 7) 0 - majorSteps.getD m.rotation 0 + 12) % 12

/-- `Tonal.Mode.notes(mode, tonic)`: the seven scale pitch classes with
correct letter spelling (consecutive letters). -/
def modeNotes (m : ModeV) (tonic : Pc) : List Pc :=
  (List.range 7).map fun j =>
    let L := (tonic.letter + j) % 7
    let wrap : ℤ := if 7 ≤ tonic.letter + j then 12 else 0
    ⟨L, tonic.chroma + m.steps.getD j 0 - letterChroma L - wrap⟩

/-- `Tonal.Mode.notes(mode, tonic + "3")`: the pitched scale, as MIDI
numbers (`C3` is MIDI 48, and Tonal transposes the pitched tonic by the
mode's ascending intervals). -/
def modeNotesPitched (m : ModeV) (tonic : Pc) : List ℤ :=
  (List.range 7).map fun j => 48 + tonic.chroma + m.steps.getD j 0

/-- Triad qualities of the major scale degrees. -/
inductive Quality | maj | minq | dim
deriving DecidableEq, Repr

def ionianQualities : List Quality :=
  [.maj, .minq, .minq, .maj, .maj, .minq, .dim]

/-- `Tonal.Mode.triads(mode, tonic)`: seven triad symbols; each symbol
is its root pitch class together with its quality suffix. -/
def modeTriads (m : ModeV) (tonic : Pc) : List (Pc × Quality) :=
  (modeNotes m tonic).zip
    ((List.range 7).map fun j => ionianQualities.getD ((m.rotation + j) % 7) .maj)

/-- The resolved chord object: `empty` is Tonal's rest/no-chord marker,
`notes` are the concrete pitches (MIDI). -/
structure ChordV where
  empty : Bool
  notes : List ℤ
deriving DecidableEq, Repr

/-- The distinguished empty/rest chord (`Tonal.Chord.getChord` on an
unrecognised symbol). -/
def restChord : ChordV := ⟨true, []⟩

/-- `Tonal.Chord.getChord(quality alias, root + "3")`: the triad at the
fixed reference octave. -/
def getChord (q : Quality) (rootMidi : ℤ) : ChordV :=
  ⟨false,
   [rootMidi,
    rootMidi + (match q with | .maj => 4 | _ => 3),
    rootMidi + (match q with | .dim => 6 | _ => 7)]⟩

/-- `octShift` from `helper.ts`, on our MIDI model: shift by octaves.
`undefined` (out-of-range indexing) propagates. -/
def octShift (note : Option ℤ) (octaves : ℤ) : Option ℤ :=
  note.map (· + octaves * 12)

/-- `octShiftAll` from `helper.ts`. -/
def octShiftAll (notes : List (Option ℤ)) (octaves : ℤ) : List (Option ℤ) :=
  notes.map (octShift · octaves)

/-- `mountNotesOnScale` from `helper.ts`. -/
def mountNotesOnScale (offsetScaleDegree : ℤ) (notes : List ℤ)
    (scale : List ℤ) : List (Option ℤ) :=
  notes.map fun note =>
    let sd := mapNote (note + offsetScaleDegree)
    octShift (listGetZ scale sd.1) sd.2

/-! ### `samples.ts` -/

/-- Sizes of the sample groups in the fixed catalog (`sampleConfig`). -/
def sampleGroupSize (name : String) : ℕ :=
  if name = "vinyl" then 4 else if name = "rain" then 4
  else if name = "cafe" then 2 else 1

/-- `SampleGroup.getRandomSample`: a seeded random index into the group. -/
def getRandomSample (sin : ℚ → ℚ) (size : ℕ) (seed : ℚ) (sys : ℚ) : ℤ :=
  randomFromInterval sin 0 ((size : ℤ) - 1) (some seed) sys

/-- `selectDrumbeat` from `samples.ts`: nearest available loop tempo to
the track bpm (JS `reduce` with the first element as initial value). -/
def selectDrumbeat (bpm : ℚ) : String :=
  let closest := [105, 110, 120, 130, 140].foldl
    (fun prev curr : ℕ =>
      if |(curr : ℚ) - bpm| < |(prev : ℚ) - bpm| then curr else prev) 100
  "drumloop" ++ toString closest

/-! ### `producer_presets.ts` -/

/-- Instrument identifiers referenced by the presets. -/
inductive Instrument
  | Piano | SoftPiano | ElectricPiano | AcousticGuitar | BassGuitar
  | Harp | Synth | ElectricGuitar
deriving DecidableEq, Repr

/-- One layer description of a preset (instrument, octave shift, volume). -/
structure LayerSpec where
  instrument : Instrument
  octaveShift : ℤ
  volume : Option ℚ
deriving DecidableEq, Repr

/-- `ProducerPreset` from `producer_presets.ts`. -/
structure ProducerPreset where
  bassLine : Option LayerSpec
  harmony : Option LayerSpec
  firstBeatArpeggio : Option LayerSpec
  melody : Option LayerSpec
  firstBeatArpeggioPattern : List ℤ
  melodyOctaves : Bool
deriving DecidableEq, Repr

/-- `BassPatterns`: rhythmic patterns `[startBeat, duration]`. -/
def BassPatterns : List (List (ℚ × ℚ)) :=
  [[(0, 4)],
   [(0, 2), (2, 2)],
   [(0, 1), (1, 1), (2, 1), (3, 1)],
   [(0, 2), (5/2, 1), (7/2, 1/2)],
   [(0, 1), (2, 1)]]

/-- Preset 0: minimal and chill (low valence, low energy). -/
def preset0 : ProducerPreset :=
  { bassLine := some ⟨.BassGuitar, 0, some (6/10)⟩
    harmony := some ⟨.ElectricPiano, 0, some (4/10)⟩
    firstBeatArpeggio := none
    melody := some ⟨.Piano, 1, some (5/10)⟩
    firstBeatArpeggioPattern := [1, 3, 5]
    melodyOctaves := false }

/-- Preset 1: warm and cozy (medium valence, low energy). -/
def preset1 : ProducerPreset :=
  { bassLine := some ⟨.BassGuitar, 0, some (7/10)⟩
    harmony := some ⟨.Piano, 0, some (5/10)⟩
    firstBeatArpeggio := some ⟨.Harp, 1, some (4/10)⟩
    melody := some ⟨.ElectricPiano, 1, some (6/10)⟩
    firstBeatArpeggioPattern := [1, 3, 5, 3]
    melodyOctaves := true }

/-- Preset 2: upbeat and jazzy (high valence, medium energy). -/
def preset2 : ProducerPreset :=
  { bassLine := some ⟨.BassGuitar, 0, some (8/10)⟩
    harmony := some ⟨.ElectricGuitar, 0, some (5/10)⟩
    firstBeatArpeggio := some ⟨.Piano, 1, some (6/10)⟩
    melody := some ⟨.Synth, 1, some (7/10)⟩
    firstBeatArpeggioPattern := [1, 3, 5, 7]
    melodyOctaves := true }

/-- Preset 3: energetic and bright (high valence, high energy). -/
def preset3 : ProducerPreset :=
  { bassLine := some ⟨.BassGuitar, 0, some (9/10)⟩
    harmony := some ⟨.ElectricGuitar, 0, some (6/10)⟩
    firstBeatArpeggio := some ⟨.AcousticGuitar, 1, some (7/10)⟩
    melody := some ⟨.Piano, 1, some (8/10)⟩
    firstBeatArpeggioPattern := [1, 5, 3, 7, 5]
    melodyOctaves := true }

/-- `selectPreset`: the (valence, energy) quadrant chooses the preset. -/
def selectPreset (valence energy : ℚ) : ProducerPreset :=
  if valence < 1/2 then
    (if energy < 1/2 then preset0 else preset2)
  else
    (if energy < 1/2 then preset1 else preset3)

/-! ### `track.ts` : times, notes, loops, tracks

Tone.js `Time` values occurring in the producer are modelled by an
inductive type: transport strings `"m:b"` / `"m:b:s"` (bars/beats/
sixteenths, 4/4 meter), plain numeric strings, notation strings such as
`"4n"` (numeric part and suffix), the JS duration object that
`addArpeggio` builds, and the `"NaN"` string that `addTime`/
`subtractTime` emit when `parseFloat` fails. -/

inductive TimeV
  | bars (m b s : ℚ)
  | num (q : ℚ)
  | nota (n : ℚ) (suffix : String)
  | durObj (unit : String) (count : ℚ)
  | nanT
deriving DecidableEq, Repr

/-- JS `parseFloat` on the string form of a `TimeV` (`none` = NaN):
`"m:b:s"` parses up to the first colon, notation strings up to the
letter suffix, and the stringified duration object is `"[object
Object]"`, which is NaN. -/
def jsParseFloat : TimeV → Option ℚ
  | .bars m _ _ => some m
  | .num q => some q
  | .nota n _ => some n
  | .durObj _ _ => none
  | .nanT => none

/-- `addTime` from `helper.ts`: `parseFloat`-based addition. -/
def addTime (t1 t2 : TimeV) : TimeV :=
  match jsParseFloat t1, jsParseFloat t2 with
  | some a, some b => .num (a + b)
  | _, _ => .nanT

/-- `subtractTime` from `helper.ts`. -/
def subtractTime (t1 t2 : TimeV) : TimeV :=
  match jsParseFloat t1, jsParseFloat t2 with
  | some a, some b => .num (a - b)
  | _, _ => .nanT

/-- Musical length of a transport time in sixteenths (one measure = 16),
the order key used when the producer sorts its drumbeat timings through
`Tone.Time(t).toSeconds()` (a positive multiple of this at fixed bpm).
Only `bars` values are ever sorted. -/
def toSixteenths : TimeV → ℚ
  | .bars m b s => 16 * m + 4 * b + s
  | .num q => 4 * q
  | .nota _ _ => 0
  | .durObj _ _ => 0
  | .nanT => 0

/-- A pitch argument of `addNote`: one pitch or several (`string |
string[]` in the source); `none` models the `undefined` pitch. -/
inductive PitchV
  | one (p : Option ℤ)
  | many (ps : List (Option ℤ))
deriving DecidableEq, Repr

/-- `SampleLoop` from `track.ts`. -/
structure SampleLoopV where
  sampleGroupName : String
  sampleIndex : ℤ
  startTime : TimeV
  stopTime : TimeV
deriving DecidableEq, Repr

/-- `InstrumentNote` from `track.ts` (pitch spellings are normalised by
`Tonal.Note.simplify`, a no-op on the MIDI model). -/
structure InstrumentNoteV where
  instrument : Instrument
  pitch : PitchV
  duration : TimeV
  time : TimeV
  velocity : Option ℚ
deriving DecidableEq, Repr

/-- `OutputParams` from `types/index.ts`. -/
structure OutputParams where
  title : Option String
  key : ℤ
  mode : ℤ
  bpm : ℚ
  energy : ℚ
  valence : ℚ
  swing : ℚ
  chords : List ℤ
  melodies : List (List ℤ)
deriving DecidableEq, Repr

/-- `Track` as built by `Producer.produce` (color is modelled by the
hue that `randomColor` computes). -/
structure TrackV where
  title : String
  swing : Bool
  key : String
  keyNum : ℤ
  mode : Option String
  modeNum : ℤ
  numMeasures : ℕ
  bpm : ℚ
  samples : List (String × ℤ)
  sampleLoops : List SampleLoopV
  instruments : List Instrument
  instrumentNotes : List InstrumentNoteV
  colorHue : ℚ
  outputParams : OutputParams
deriving DecidableEq, Repr

/-! ### `producer.ts` -/

/-- The `if (this.mode === 'ionian')` block of
`Producer.simplifyKeySignature`: rename to `'major'` and replace the
tonic by its enharmonic when the latter's major-key signature is not
longer. -/
def simplifyIonian (p : Pc × Option ModeV) : Pc × Option ModeV :=
  if p.2 = some .ionian then
    (if majorSigLen (enharmonic p.1) ≤ majorSigLen p.1 then enharmonic p.1 else p.1,
     some .major)
  else p

/-- The `if (this.mode === 'aeolian')` block: rename to `'minor'`; note
the source compares the tonic's *minor*-key signature with the
enharmonic's *major*-key signature (`Tonal.Key.majorKey(enharmonic)`). -/
def simplifyAeolian (p : Pc × Option ModeV) : Pc × Option ModeV :=
  if p.2 = some .aeolian then
    (if majorSigLen (enharmonic p.1) ≤ minorSigLen p.1 then enharmonic p.1 else p.1,
     some .minor)
  else p

/-- `Producer.simplifyKeySignature`: the two blocks run in sequence. -/
def simplifyKeySignature (tonic : Pc) (mode : Option ModeV) : Pc × Option ModeV :=
  simplifyAeolian (simplifyIonian (tonic, mode))

/-- `chordsTonal` from `Producer.produce`: each chord-degree entry is
resolved through `chordsInScale[degree-1]` and `notesInScale[degree-1]`;
an out-of-range index reads `undefined` and `Tonal.Chord.getChord` then
yields the empty chord. -/
def resolveChordDeg (chordsInScale : List (Pc × Quality)) (notesInScale : List Pc)
    (c : ℤ) : ChordV :=
  match listGetZ chordsInScale (c - 1), listGetZ notesInScale (c - 1) with
  | some t, some n => getChord t.2 (48 + n.chroma)
  | _, _ => restChord

def resolveChords (chordsInScale : List (Pc × Quality)) (notesInScale : List Pc)
    (chords : List ℤ) : List ChordV :=
  chords.map (resolveChordDeg chordsInScale notesInScale)

/-- The mutable per-production state of `Producer` (its array fields). -/
structure PState where
  samples : List (String × ℤ)
  sampleLoops : List SampleLoopV
  instruments : List Instrument
  instrumentNotes : List InstrumentNoteV
  drumbeatTimings : List (Bool × TimeV)
deriving DecidableEq, Repr

def PState.empty : PState := ⟨[], [], [], [], []⟩

/-- `Producer.addSample`. -/
def addSampleSt (st : PState) (sample : String) (sampleIndex : ℤ)
    (startTime stopTime : TimeV) : PState :=
  { st with
    samples :=
      if st.samples.contains (sample, sampleIndex) then st.samples
      else st.samples ++ [(sample, sampleIndex)]
    sampleLoops := st.sampleLoops ++ [⟨sample, sampleIndex, startTime, stopTime⟩] }

/-- `Producer.addNote` (given the already-built note record). -/
def addNoteSt (st : PState) (nt : InstrumentNoteV) : PState :=
  { st with
    instruments :=
      if st.instruments.contains nt.instrument then st.instruments
      else st.instruments ++ [nt.instrument]
    instrumentNotes := st.instrumentNotes ++ [nt] }

/-- `Producer.startDrumbeat`. -/
def startDrumbeatSt (st : PState) (t : TimeV) : PState :=
  { st with drumbeatTimings := st.drumbeatTimings ++ [(true, t)] }

/-- `Producer.endDrumbeat`. -/
def endDrumbeatSt (st : PState) (t : TimeV) : PState :=
  { st with drumbeatTimings := st.drumbeatTimings ++ [(false, t)] }

/-- `Producer.addArpeggio`: one note per arpeggio pitch, with duration
`subtractTime(totalDuration, {singleNoteUnit: i})` and onset
`addTime(startTime, {singleNoteUnit: i})` (both NaN, since `parseFloat`
of the duration object is NaN — see `helper.ts`). -/
def addArpeggioSt (st : PState) (instrument : Instrument) (notes : List (Option ℤ))
    (totalDuration : TimeV) (singleNoteUnit : String) (startTime : TimeV)
    (velocity : Option ℚ) : PState :=
  notes.enum.foldl
    (fun s (p : ℕ × Option ℤ) =>
      addNoteSt s
        { instrument := instrument
          pitch := .one p.2
          duration := subtractTime totalDuration (.durObj singleNoteUnit (p.1 : ℚ))
          time := addTime startTime (.durObj singleNoteUnit (p.1 : ℚ))
          velocity := velocity })
    st

/-! #### The melody reduce (run-length encoding) -/

/-- One step of the `reduce` in `Producer.produceIteration` that groups
the slot's melody entries: the accumulator is the list of closed runs
plus the currently open run `(value, length, startIndex)` (the source's
initially-empty `top`, modelled by `Option`). -/
def rleStep (acc : List (ℤ × ℕ × ℕ) × Option (ℤ × ℕ × ℕ)) (e : ℕ × ℤ) :
    List (ℤ × ℕ × ℕ) × Option (ℤ × ℕ × ℕ) :=
  match acc.2 with
  | none => (acc.1, some (e.2, 1, e.1))
  | some t =>
    if t.1 = e.2 then (acc.1, some (t.1, t.2.1 + 1, t.2.2))
    else (acc.1 ++ [t], some (e.2, 1, e.1))

/-- `notesReduced`: the closed runs followed by the final open run (the
source appends `notes[1]` even when it is the empty initial `top`, which
then emits nothing downstream; `Option.toList` models that). -/
def jsRuns (mel : List ℤ) : List (ℤ × ℕ × ℕ) :=
  let acc := mel.enum.foldl rleStep ([], none)
  acc.1 ++ acc.2.toList

/-- The note a single run contributes: `mapNote` splits the value into
a scale-degree index (JS `% 7`) and an octave; a negative index emits
nothing, otherwise one note of fixed duration `'4n'` at sixteenth
`2 * startIndex` of the measure.  The run length is not used. -/
def noteOfRun (ml : LayerSpec) (melodyOctaves : Bool) (scalePitched : List ℤ)
    (measure : ℚ) (run : ℤ × ℕ × ℕ) : Option InstrumentNoteV :=
  let sd := mapNote run.1
  if 0 ≤ sd.1 then
    let n := octShift (listGetZ scalePitched sd.1) (sd.2 + ml.octaveShift)
    some { instrument := ml.instrument
           pitch := if melodyOctaves then .many [octShift n (-1), n] else .one n
           duration := .nota 4 "n"
           time := .bars measure 0 (2 * (run.2.2 : ℚ))
           velocity := ml.volume }
  else none

/-- The melody notes emitted for one chord slot. -/
def melodySlotNotes (ml : LayerSpec) (melodyOctaves : Bool) (scalePitched : List ℤ)
    (measure : ℚ) (mel : List ℤ) : List InstrumentNoteV :=
  (jsRuns mel).filterMap (noteOfRun ml melodyOctaves scalePitched measure)

/-- Maximal-run decomposition of a melody sequence, following the
spec's wording: each maximal block of consecutive equal entries becomes
one `(value, length, startIndex)` run.  Used to certify that the
`reduce` in `produceIteration` (`jsRuns`) computes exactly the maximal
runs. -/
def specRuns (s : ℕ) : List ℤ → List (ℤ × ℕ × ℕ)
  | [] => []
  | c :: rest =>
    match specRuns (s + 1) rest with
    | [] => [(c, 1, s)]
    | (v, n, i) :: rs =>
      if v = c then (c, n + 1, s) :: rs else (c, 1, s) :: (v, n, i) :: rs

/-- Decoding a run list back into the melody sequence. -/
def runsDecode (runs : List (ℤ × ℕ × ℕ)) : List ℤ :=
  runs.foldr (fun r acc => List.replicate r.2.1 r.1 ++ acc) []

/-- Each run's start index is the sum of the lengths before it. -/
def runsStartsOk : ℕ → List (ℤ × ℕ × ℕ) → Bool
  | _, [] => true
  | s, r :: rs => (r.2.2 == s) && runsStartsOk (s + r.2.1) rs

/-- The tail of a run decomposition whose first, still-open run is
`(v, n, s)` and whose remaining closed runs are `R`: the open run is
merged with `R`'s first run when the values agree. -/
def runsCont (v : ℤ) (n s : ℕ) (R : List (ℤ × ℕ × ℕ)) : List (ℤ × ℕ × ℕ) :=
  match R with
  | [] => [(v, n, s)]
  | (w, m, i) :: rs => if w = v then (v, n + m, s) :: rs else (v, n, s) :: (w, m, i) :: rs

/-! #### Producer context and iteration -/

/-- The fields of `Producer` that are fixed before the arranging starts
(set by the first part of `produce`). -/
structure ProducerCtx where
  tonic : Pc
  modeOpt : Option ModeV
  keyNum : ℤ
  modeNum : ℤ
  energy : ℚ
  valence : ℚ
  preset : ProducerPreset
  notesInScale : List Pc
  notesInScalePitched : List ℤ
  chordsInScale : List (Pc × Quality)
  chords : List ℤ
  chordsTonal : List ChordV
  melodies : List (List ℤ)
  bpm : ℚ
deriving Repr

/-- The body of the `forEach` in `Producer.produceIteration`, for slot
`chordNo` holding degree `scaleDegree`; the Bool is the local
`noDrumBeatCurrently` flag. -/
def iterStep (sin : ℚ → ℚ) (r : ℕ → ℚ) (ctx : ProducerCtx) (iterationMeasure : ℚ)
    (acc : PState × Bool) (e : ℕ × ℤ) : PState × Bool :=
  let chordNo := e.1
  let scaleDegree := e.2
  let chord := (listGetZ ctx.chordsTonal (chordNo : ℤ)).getD restChord
  let measure : ℚ := iterationMeasure + chordNo
  let (st, noDrum) :=
    if chord.empty then
      (endDrumbeatSt acc.1 (.bars measure 3 0), true)
    else
      let st := if acc.2 then startDrumbeatSt acc.1 (.bars measure 0 0) else acc.1
      -- bass line
      let st :=
        match ctx.preset.bassLine with
        | none => st
        | some bass =>
          let rootNote : Option ℤ :=
            (listGetZ ctx.notesInScale (scaleDegree - 1)).map
              (fun pc => 12 * (1 + bass.octaveShift + 1) + pc.chroma)
          let bassPatternNo := randomFromInterval sin 0 ((BassPatterns.length : ℤ) - 1)
            (some (ctx.energy + ctx.valence + iterationMeasure + chordNo)) (r 0)
          let bassPattern := (listGetZ BassPatterns bassPatternNo).getD []
          bassPattern.foldl
            (fun s (p : ℚ × ℚ) =>
              addNoteSt s
                { instrument := bass.instrument
                  pitch := .one rootNote
                  duration := .bars 0 p.2 0
                  time := .bars measure p.1 0
                  velocity := bass.volume })
            st
      -- harmony
      let st :=
        match ctx.preset.harmony with
        | none => st
        | some h =>
          let shifted := octShiftAll (chord.notes.map some) h.octaveShift
          let harmonyNotes :=
            match shifted with
            | [] => [octShift none 1]
            | x :: xs => octShift x 1 :: xs
          addNoteSt st
            { instrument := h.instrument
              pitch := .many harmonyNotes
              duration := .nota 1 "m"
              time := .bars measure 0 0
              velocity := h.volume }
      -- first beat arpeggio
      let st :=
        match ctx.preset.firstBeatArpeggio with
        | none => st
        | some a =>
          let arpeggioNotes := octShiftAll
            (mountNotesOnScale scaleDegree ctx.preset.firstBeatArpeggioPattern
              ctx.notesInScalePitched)
            a.octaveShift
          addArpeggioSt st a.instrument arpeggioNotes (.bars 0 4 0) "8n"
            (.bars measure 0 0) a.volume
      (st, false)
  -- melody (runs on rest slots too)
  match ctx.preset.melody with
  | none => (st, noDrum)
  | some ml =>
    if ctx.melodies.length = 0 then (st, noDrum)
    else
      ((melodySlotNotes ml ctx.preset.melodyOctaves ctx.notesInScalePitched measure
          (ctx.melodies.getD chordNo [])).foldl addNoteSt st,
       noDrum)

/-- `Producer.produceIteration` (state effect): iterate the (possibly
cut-off) chord list with the `noDrumBeatCurrently` flag starting false. -/
def produceIterationSt (sin : ℚ → ℚ) (r : ℕ → ℚ) (ctx : ProducerCtx)
    (iterationMeasure : ℚ) (cutoff : Option ℕ) (st : PState) : PState :=
  let chords := match cutoff with | some c => ctx.chords.take c | none => ctx.chords
  (chords.enum.foldl (iterStep sin r ctx iterationMeasure) (st, false)).1

/-- Whether slot `j`'s resolved chord is the rest chord
(`this.chordsTonal[chordNo].empty` in `produceIteration`). -/
def chordEmptyAt (ctx : ProducerCtx) (j : ℕ) : Bool :=
  ((listGetZ ctx.chordsTonal (j : ℤ)).getD restChord).empty

/-- The drumbeat start/end events one pass of `produceIteration`
appends, as a function of each slot's rest status and of the incoming
`noDrumBeatCurrently` flag: a rest slot emits an end event at beat 3 of
its measure; the first non-rest slot after a rest emits a start event
at its onset. -/
def dtEvents (ctx : ProducerCtx) (iterM : ℚ) :
    List (ℕ × ℤ) → Bool → List (Bool × TimeV)
  | [], _ => []
  | e :: rest, flag =>
    if chordEmptyAt ctx e.1 then
      (false, .bars (iterM + (e.1 : ℚ)) 3 0) :: dtEvents ctx iterM rest true
    else
      (if flag then [(true, .bars (iterM + (e.1 : ℚ)) 0 0)] else []) ++
        dtEvents ctx iterM rest false

/-- `Producer.produceIteration`'s return value: the length of the
(possibly cut-off) chord list. -/
def produceIterationCount (chords : List ℤ) (cutoff : Option ℕ) : ℕ :=
  match cutoff with | some c => (chords.take c).length | none => chords.length

/-- `Producer.produceIntro`. -/
def introLength : ℕ := 1

/-- `numberOfIterations` in `Producer.produceMain`:
`Math.ceil(24 / chords.length)` (the source diverges on an empty chord
list — JS `24/0` is `Infinity`; theorems therefore assume a non-empty
chord list). -/
def mainIterations (len : ℕ) : ℕ := (jsCeil (24 / (len : ℚ))).toNat

/-- `Producer.produceMain`'s return value. -/
def mainLength (len : ℕ) : ℕ := len * mainIterations len

/-- `Producer.produceMain` (state effect). -/
def produceMainSt (sin : ℚ → ℚ) (r : ℕ → ℚ) (ctx : ProducerCtx) (st : PState) :
    PState :=
  let len := ctx.chords.length
  let drumbeatPadding : ℚ := if 8 < len then 2 else 1
  (List.range (mainIterations len)).foldl
    (fun s i =>
      let iterationMeasure : ℚ := introLength + (i : ℚ) * len
      let s := startDrumbeatSt s
        (.bars (if i = 0 then iterationMeasure + drumbeatPadding else iterationMeasure) 0 0)
      let s := endDrumbeatSt s
        (.bars ((introLength : ℚ) + ((i : ℚ) + 1) * len - drumbeatPadding) 0 0)
      produceIterationSt sin r ctx iterationMeasure none s)
    st

/-- `Producer.produceOutro`'s return value: one truncated pass (cutoff
2) plus a 1-measure tail.  (The method also stores a seconds-based
value into `outroLength`, but `produce` immediately overwrites that
field with this return value.) -/
def outroLength (len : ℕ) : ℕ := min 2 len + 1

/-- `Producer.produceFx`: rain for low valence in the aeolian input
mode, vinyl crackle otherwise; the sample index is seeded. -/
def produceFxSt (sin : ℚ → ℚ) (r : ℕ → ℚ) (ctx : ProducerCtx) (numMeasures : ℕ)
    (st : PState) : PState :=
  if ctx.valence < 1/2 ∧ ctx.modeNum = 6 then
    let randomRain := getRandomSample sin (sampleGroupSize "rain") ctx.valence (r 0)
    addSampleSt st "rain" randomRain (.bars 0 0 0) (.bars ((numMeasures : ℚ) - 1/2) 0 0)
  else
    let randomVinyl := getRandomSample sin (sampleGroupSize "vinyl")
      (ctx.valence + ctx.energy) (r 0)
    addSampleSt st "vinyl" randomVinyl (.bars 0 0 0) (.bars ((numMeasures : ℚ) - 1/2) 0 0)

/-- Modelled from the spec: the two-argument `selectDrumbeat(bpm,
energy)` that `producer.ts` imports from its `samples` module is not
among the repository's source files (the file present exports only a
one-argument tempo match).  Per the spec, the rhythm-loop group is
chosen by nearest-neighbour tempo match and the index within the group
by a seeded pseudo-random function of the mood input, so the same
inputs always pick the same variant. -/
def selectDrumbeatPair (sin : ℚ → ℚ) (r : ℕ → ℚ) (bpm energy : ℚ) : String × ℤ :=
  let group := selectDrumbeat bpm
  (group, getRandomSample sin (sampleGroupSize group) energy (r 0))

/-- Stable insertion (later pushes land after earlier equal keys),
modelling the stable JS `Array.prototype.sort` by
`Tone.Time(t).toSeconds()`. -/
def insertTiming (x : Bool × TimeV) : List (Bool × TimeV) → List (Bool × TimeV)
  | [] => [x]
  | y :: ys =>
    if toSixteenths x.2 < toSixteenths y.2 then x :: y :: ys else y :: insertTiming x ys

/-- The producer's sort of `drumbeatTimings`. -/
def sortTimings (l : List (Bool × TimeV)) : List (Bool × TimeV) :=
  l.foldl (fun acc x => insertTiming x acc) []

/-- The `` `${time}:0` `` in `produce`: drumbeat timings are `"m:b"`
strings, so this produces `"m:b:0"` — the same transport time. -/
def appendColonZero : TimeV → TimeV
  | .bars m b _ => .bars m b 0
  | t => t

/-- The pairing scan over the sorted drumbeat timings in `produce`:
a start opens a window if none is open; an end with an open window
emits one sample loop. -/
def pairDrumbeat (group : String) (index : ℤ) (st : PState) :
    List (Bool × TimeV) → Option TimeV → PState
  | [], _ => st
  | (isStart, t) :: rest, cur =>
    if isStart then
      pairDrumbeat group index st rest (cur.orElse fun _ => some t)
    else
      match cur with
      | some c =>
        pairDrumbeat group index
          (addSampleSt st group index (appendColonZero c) (appendColonZero t))
          rest none
      | none => pairDrumbeat group index st rest none

/-- `let bpm = Math.round(params.bpm / 5) * 5` followed by the clamps
to 70 and 100 at the top of `Producer.produce`. -/
def normBpm (q : ℚ) : ℚ :=
  let b : ℤ := jsRound (q / 5) * 5
  if b < 70 then 70 else if b > 100 then 100 else (b : ℚ)

/-- Printed mode names (`undefined` for an out-of-range mode is kept as
`Option.none` by the caller). -/
def ModeV.str : ModeV → String
  | .ionian => "ionian" | .dorian => "dorian" | .phrygian => "phrygian"
  | .lydian => "lydian" | .mixolydian => "mixolydian" | .aeolian => "aeolian"
  | .locrian => "locrian" | .major => "major" | .minor => "minor"

/-- The context-building first part of `Producer.produce` (lines up to
`this.melodies = params.melodies`). -/
def mkCtx (params : OutputParams) : ProducerCtx :=
  let bpm := normBpm params.bpm
  let tonic0 := keyNumberToString params.key
  let mode0 : Option ModeV := listGetZ modeNames (params.mode - 1)
  let p := simplifyKeySignature tonic0 mode0
  let tonic := p.1
  let modeOpt := p.2
  let notesInScale := match modeOpt with | some m => modeNotes m tonic | none => []
  let notesInScalePitched :=
    match modeOpt with | some m => modeNotesPitched m tonic | none => []
  let chordsInScale := match modeOpt with | some m => modeTriads m tonic | none => []
  { tonic := tonic
    modeOpt := modeOpt
    keyNum := params.key
    modeNum := params.mode
    energy := params.energy
    valence := params.valence
    preset := selectPreset params.valence params.energy
    notesInScale := notesInScale
    notesInScalePitched := notesInScalePitched
    chordsInScale := chordsInScale
    chords := params.chords
    chordsTonal := resolveChords chordsInScale notesInScale params.chords
    melodies := params.melodies
    bpm := bpm }

/-- `Producer.produce`: the full deterministic production of a Track. -/
def produce (sin : ℚ → ℚ) (r : ℕ → ℚ) (params : OutputParams) : TrackV :=
  let ctx := mkCtx params
  let swingFlag := randomFromInterval sin 1 10 (some params.swing) (r 0) ≤ 1
  let len := ctx.chords.length
  let intro := introLength
  let main := mainLength len
  let outro := outroLength len
  let numMeasures := intro + main + outro
  let st := produceMainSt sin r ctx PState.empty
  let st := produceIterationSt sin r ctx ((intro : ℚ) + (main : ℚ)) (some 2) st
  let st := produceFxSt sin r ctx numMeasures st
  let d := selectDrumbeatPair sin r ctx.bpm ctx.energy
  let st := pairDrumbeat d.1 d.2 st (sortTimings st.drumbeatTimings) none
  let modeStr := match ctx.modeOpt with | some m => m.str | none => "undefined"
  let defaultTitle := "Lofi track in " ++ ctx.tonic.name ++ " " ++ modeStr
  let title := match params.title with
    | some t => if t = "" then defaultTitle else t
    | none => defaultTitle
  { title := title
    swing := swingFlag
    key := ctx.tonic.name
    keyNum := params.key
    mode := ctx.modeOpt.map ModeV.str
    modeNum := params.mode
    numMeasures := numMeasures
    bpm := ctx.bpm
    samples := st.samples
    sampleLoops := st.sampleLoops
    instruments := st.instruments
    instrumentNotes := st.instrumentNotes
    colorHue := randomColorHue sin (ctx.energy + ctx.valence)
    outputParams := params }

/-! ### `creator.ts` : render scheduler -/

/-- The fade-out offset computed by the repeating 100 ms task in
`Creator.load`: `seconds < fadeOutBegin ? 0 : (seconds - fadeOutBegin) * 4`
where `fadeOutBegin = trackLength - fadeOutDuration`. -/
def volumeOffset (trackLength fadeOutDuration t : ℚ) : ℚ :=
  if t < trackLength - fadeOutDuration then 0
  else (t - (trackLength - fadeOutDuration)) * 4

/-- The gain the task writes to a voice at a sampled time: the voice's
recorded baseline volume minus the fade-out offset
(`sampler.volume.value = volume - volumeOffset`). -/
def sampledGain (baseline trackLength fadeOutDuration t : ℚ) : ℚ :=
  baseline - volumeOffset trackLength fadeOutDuration t

/-- The resources a `Creator` holds during one render.  Each Tone.js
node carries a disposed flag (`Tone.Player` slots may be empty — the
sample player arrays are sparse).  The transport carries its running
state and its number of scheduled events. -/
structure CreatorState where
  samplePlayers : List (List (Option Bool))
  instruments : List Bool
  gainDisposed : Bool
  recorderDisposed : Bool
  transportStarted : Bool
  transportEvents : ℕ
  recordingStarted : Bool
deriving DecidableEq, Repr

/-- `Creator.dispose`: dispose every present sample player, every
instrument, the gain node and the recorder, then stop and cancel the
transport.  Each Tone.js `dispose` sets the node's disposed flag and is
itself a no-op on an already-disposed node. -/
def dispose (s : CreatorState) : CreatorState :=
  { s with
    samplePlayers := s.samplePlayers.map fun players =>
      players.map (Option.map fun _ => true)
    instruments := s.instruments.map fun _ => true
    gainDisposed := true
    recorderDisposed := true
    transportStarted := false
    transportEvents := 0 }

/-- Number of still-allocated (present and undisposed) resources. -/
def allocatedCount (s : CreatorState) : ℕ :=
  (s.samplePlayers.map fun players =>
      (players.filterMap id).count false).sum
  + s.instruments.count false
  + (if s.gainDisposed then 0 else 1)
  + (if s.recorderDisposed then 0 else 1)

/-! ### Concrete instantiations used by witnesses and counterexamples -/

/-- A concrete deterministic stand-in for `Math.sin`. -/
def sinZero : ℚ → ℚ := fun _ => 0

/-- Two distinct unseeded-randomness oracles. -/
def randZero : ℕ → ℚ := fun _ => 0

def randHalf : ℕ → ℚ := fun _ => 1/2

/-- The spec's example-4 parameter vector (`chords:[1,0,5,1]`). -/
def exampleParams : OutputParams :=
  { title := none, key := 1, mode := 1, bpm := 82, energy := 1/2, valence := 1/2
    swing := 1/2, chords := [1, 0, 5, 1], melodies := [[], [], [], []] }

/-- An out-of-range key (13) with otherwise valid fields. -/
def key13Params : OutputParams :=
  { title := none, key := 13, mode := 1, bpm := 82, energy := 1/2, valence := 1/2
    swing := 1/2, chords := [1], melodies := [[]] }

/-! ### C6 : bpm normalization -/

/-- Clamping to an interval, as the spec words it. -/
def clampQ (lo hi x : ℚ) : ℚ := if x < lo then lo else if x > hi then hi else x

theorem jsRound_le_dist (q : ℚ) (k : ℤ) :
    |((jsRound q : ℤ) : ℚ) - q| ≤ |(k : ℚ) - q| := by
  unfold jsRound
  set n := ⌊q + 1/2⌋ with hn
  have h1 : (n : ℚ) ≤ q + 1/2 := Int.floor_le _
  have h2 : q + 1/2 < (n : ℚ) + 1 := Int.lt_floor_add_one _
  have hb : |(n : ℚ) - q| ≤ 1/2 := abs_le.mpr ⟨by linarith, by linarith⟩
  rcases lt_trichotomy k n with hk | hk | hk
  · have hk' : (k : ℚ) ≤ (n : ℚ) - 1 := by exact_mod_cast Int.le_sub_one_of_lt hk
    have : (1 : ℚ) / 2 ≤ q - k := by linarith
    calc |((n : ℤ) : ℚ) - q| ≤ 1/2 := hb
    _ ≤ q - k := this
    _ ≤ |(k : ℚ) - q| := by rw [abs_sub_comm]; exact le_abs_self _
  · rw [hk]
  · have hk' : (n : ℚ) + 1 ≤ (k : ℚ) := by exact_mod_cast hk
    have : (1 : ℚ) / 2 ≤ (k : ℚ) - q := by linarith
    calc |((n : ℤ) : ℚ) - q| ≤ 1/2 := hb
    _ ≤ (k : ℚ) - q := this
    _ ≤ |(k : ℚ) - q| := le_abs_self _

theorem jsRound_eq (q : ℚ) (n : ℤ) (h1 : (n : ℚ) ≤ q + 1/2) (h2 : q + 1/2 < n + 1) :
    jsRound q = n := by
  unfold jsRound
  exact Int.floor_eq_iff.mpr ⟨h1, h2⟩

theorem normBpm_eq_clamp (q : ℚ) :
    normBpm q = clampQ 70 100 ((5 * jsRound (q / 5) : ℤ) : ℚ) := by
  simp only [normBpm, clampQ]
  have e : ((5 * jsRound (q / 5) : ℤ) : ℚ) = ((jsRound (q / 5) * 5 : ℤ) : ℚ) := by
    push_cast
    ring
  rw [e]
  rcases lt_or_le (jsRound (q / 5) * 5) 70 with h | h
  · rw [if_pos h, if_pos (show ((jsRound (q / 5) * 5 : ℤ) : ℚ) < 70 by exact_mod_cast h)]
  · rw [if_neg (not_lt.mpr h),
      if_neg (not_lt.mpr (show (70 : ℚ) ≤ ((jsRound (q / 5) * 5 : ℤ) : ℚ) by exact_mod_cast h))]
    rcases lt_or_le (100 : ℤ) (jsRound (q / 5) * 5) with h' | h'
    · rw [if_pos h', if_pos (show (100 : ℚ) < ((jsRound (q / 5) * 5 : ℤ) : ℚ) by exact_mod_cast h')]
    · rw [if_neg (not_lt.mpr h'),
        if_neg (not_lt.mpr (show ((jsRound (q / 5) * 5 : ℤ) : ℚ) ≤ 100 by exact_mod_cast h'))]

theorem normBpm_mem (q : ℚ) :
    normBpm q ∈ ([70, 75, 80, 85, 90, 95, 100] : List ℚ) := by
  simp only [normBpm]
  rcases lt_or_le (jsRound (q / 5) * 5) 70 with h | h
  · rw [if_pos h]; simp
  · rw [if_neg (not_lt.mpr h)]
    rcases lt_or_le (100 : ℤ) (jsRound (q / 5) * 5) with h' | h'
    · rw [if_pos h']; simp
    · rw [if_neg (not_lt.mpr h')]
      have h14 : 14 ≤ jsRound (q / 5) := by omega
      have h20 : jsRound (q / 5) ≤ 20 := by omega
      set n : ℤ := jsRound (q / 5) with hn
      interval_cases n <;> norm_num

unseal Rat.add Rat.mul Rat.inv Rat.sub in
theorem normBpm_idem (q : ℚ) : normBpm (normBpm q) = normBpm q := by
  have h := normBpm_mem q
  simp only [List.mem_cons, List.mem_singleton, List.not_mem_nil, or_false] at h
  rcases h with h | h | h | h | h | h | h <;> rw [h] <;> decide

/-- C6: for every positive bpm, the normalized bpm is a nearest multiple
of 5 clamped to [70,100]; it always lies in {70,75,80,85,90,95,100};
and the normalization is idempotent. -/
theorem C6_bpm_normalization (q : ℚ) (hq : 0 < q) :
    (∃ n : ℤ, (∀ k : ℤ, |((5 * n : ℤ) : ℚ) - q| ≤ |((5 * k : ℤ) : ℚ) - q|) ∧
      normBpm q = clampQ 70 100 ((5 * n : ℤ) : ℚ)) ∧
    normBpm q ∈ ([70, 75, 80, 85, 90, 95, 100] : List ℚ) ∧
    normBpm (normBpm q) = normBpm q := by
  have dist5 : ∀ a k : ℤ, |((a : ℤ) : ℚ) - q / 5| ≤ |(k : ℚ) - q / 5| →
      |((5 * a : ℤ) : ℚ) - q| ≤ |((5 * k : ℤ) : ℚ) - q| := by
    intro a k h
    have e : ∀ m : ℤ, ((5 * m : ℤ) : ℚ) - q = 5 * ((m : ℚ) - q / 5) := by
      intro m; push_cast; ring
    rw [e, e, abs_mul, abs_mul]
    have e5 : |(5 : ℚ)| = 5 := by norm_num
    rw [e5]
    exact mul_le_mul_of_nonneg_left h (by norm_num)
  have hnear : ∀ k : ℤ, |((5 * jsRound (q / 5) : ℤ) : ℚ) - q| ≤ |((5 * k : ℤ) : ℚ) - q| :=
    fun k => dist5 _ k (jsRound_le_dist (q / 5) k)
  exact ⟨⟨jsRound (q / 5), hnear, normBpm_eq_clamp q⟩, normBpm_mem q, normBpm_idem q⟩

/-- C6 witness: the concrete bpm 82 normalizes to 80 and the theorem's
conclusions hold there. -/
theorem C6_bpm_normalization_witness :
    (0 < (82 : ℚ)) ∧
    (normBpm 82 ∈ ([70, 75, 80, 85, 90, 95, 100] : List ℚ) ∧
      normBpm (normBpm 82) = normBpm 82) := by
  refine ⟨by norm_num, ?_, (C6_bpm_normalization 82 (by norm_num)).2.2⟩
  exact (C6_bpm_normalization 82 (by norm_num)).2.1

/-! ### C10 : drumbeat tempo selection -/

/-- C10: over the whole normalized tempo range [70,100] the
nearest-neighbour loop-tempo match is constant: `selectDrumbeat`
returns the group name `"drumloop100"`. -/
theorem C10_selectDrumbeat_constant (bpm : ℚ) (h1 : 70 ≤ bpm) (h2 : bpm ≤ 100) :
    selectDrumbeat bpm = "drumloop100" := by
  have h100 : ((100 : ℕ) : ℚ) = 100 := by norm_num
  have step : ∀ c : ℕ, (100 : ℚ) < (c : ℚ) →
      ¬(|(c : ℚ) - bpm| < |((100 : ℕ) : ℚ) - bpm|) := by
    intro c hc
    rw [h100, abs_of_nonneg (by linarith), abs_of_nonneg (by linarith)]
    intro h
    linarith
  unfold selectDrumbeat
  simp only [List.foldl_cons, List.foldl_nil]
  rw [if_neg (step 105 (by norm_num)), if_neg (step 110 (by norm_num)),
    if_neg (step 120 (by norm_num)), if_neg (step 130 (by norm_num)),
    if_neg (step 140 (by norm_num))]
  rfl

/-- C10 witness at bpm 85. -/
theorem C10_selectDrumbeat_constant_witness :
    (70 : ℚ) ≤ 85 ∧ (85 : ℚ) ≤ 100 ∧ selectDrumbeat 85 = "drumloop100" :=
  ⟨by norm_num, by norm_num, C10_selectDrumbeat_constant 85 (by norm_num) (by norm_num)⟩

/-! ### C8 : fade-out monotonicity -/

/-- C8: the fade-out offset is 0 before `trackLength - fadeOutDuration`
and grows linearly (slope 4) afterwards, so every voice's sampled gain
(baseline minus offset) is non-increasing. -/
theorem C8_fade_monotone (trackLength fadeOutDuration baseline : ℚ) :
    (∀ t, t < trackLength - fadeOutDuration →
      volumeOffset trackLength fadeOutDuration t = 0) ∧
    (∀ t, trackLength - fadeOutDuration ≤ t →
      volumeOffset trackLength fadeOutDuration t =
        (t - (trackLength - fadeOutDuration)) * 4) ∧
    (∀ t1 t2, t1 ≤ t2 →
      sampledGain baseline trackLength fadeOutDuration t2 ≤
        sampledGain baseline trackLength fadeOutDuration t1) := by
  refine ⟨fun t ht => ?_, fun t ht => ?_, fun t1 t2 h12 => ?_⟩
  · unfold volumeOffset; rw [if_pos ht]
  · unfold volumeOffset; rw [if_neg (not_lt.mpr ht)]
  · unfold sampledGain volumeOffset
    rcases lt_or_le t2 (trackLength - fadeOutDuration) with ha | ha
    · rw [if_pos ha, if_pos (lt_of_le_of_lt h12 ha)]
    · rw [if_neg (not_lt.mpr ha)]
      rcases lt_or_le t1 (trackLength - fadeOutDuration) with hb | hb
      · rw [if_pos hb]; linarith
      · rw [if_neg (not_lt.mpr hb)]; linarith

/-- C8 witness: track of 60 s with a 10 s fade: offset 0 at 45 s, 20 at
50 + 5 s, and gain non-increasing from 55 s to 56 s. -/
theorem C8_fade_monotone_witness :
    volumeOffset 60 10 45 = 0 ∧ volumeOffset 60 10 55 = 20 ∧
    sampledGain 0 60 10 56 ≤ sampledGain 0 60 10 55 := by
  refine ⟨(C8_fade_monotone 60 10 0).1 45 (by norm_num), ?_,
    (C8_fade_monotone 60 10 0).2.2 55 56 (by norm_num)⟩
  have h := (C8_fade_monotone 60 10 0).2.1 55 (by norm_num)
  rw [h]; norm_num

/-! ### C9 : unconditional, idempotent disposal -/

theorem count_false_disposed (l : List (Option Bool)) :
    ((l.map (Option.map fun _ => true)).filterMap id).count false = 0 := by
  induction l with
  | nil => rfl
  | cons x xs ih =>
    cases x with
    | none => simpa using ih
    | some b => simpa [List.count_cons] using ih

/-- C9: disposal releases every resource in every creator state (any
render outcome), stops and clears the transport, and is idempotent —
a second call (or a call before recording started) is harmless. -/
theorem sum_count_disposed (L : List (List (Option Bool))) :
    ((L.map fun players => players.map (Option.map fun _ => true)).map
      fun players => (players.filterMap id).count false).sum = 0 := by
  induction L with
  | nil => rfl
  | cons x xs ih =>
    simp only [List.map_cons, List.sum_cons]
    rw [count_false_disposed x, ih]

/-- C9: disposal releases every present sample player, every
instrument voice, the gain node and the recorder, and stops and clears
the transport clock, from every creator state (any render outcome);
after disposal zero resources remain allocated, and disposing again —
or disposing before recording has started — is a no-op rather than an
error (disposal is total and idempotent). -/
theorem C9_dispose_teardown (s : CreatorState) :
    allocatedCount (dispose s) = 0 ∧
    (dispose s).transportStarted = false ∧
    (dispose s).transportEvents = 0 ∧
    dispose (dispose s) = dispose s := by
  refine ⟨?_, rfl, rfl, ?_⟩
  · have h3 : (s.instruments.map fun _ => true).count false = 0 := by
      rw [List.count_eq_zero]
      intro hmem
      rcases List.mem_map.mp hmem with ⟨_, _, he⟩
      simp at he
    have h2 := sum_count_disposed s.samplePlayers
    rw [List.map_map] at h2
    unfold allocatedCount dispose
    simp only [List.map_map]
    rw [h2, h3]
    simp
  · unfold dispose
    simp [List.map_map, Function.comp_def, Option.map_map]

/-! ### C5 : out-of-range key/mode -/

unseal Rat.add Rat.mul Rat.inv Rat.sub in
/-- C5 counterexample: the claim says key 13 must fail with
`InvalidParameterError` and produce no Track; the code has no such
error — at key 13 a Track is produced, with the fallback tonic `'C'`
(the `|| 'C'` in `keyNumberToString`) and the full arrangement. -/
theorem C5_counterexample :
    (produce sinZero randZero key13Params).key = "C" ∧
    (produce sinZero randZero key13Params).numMeasures = 27 := by
  constructor <;> decide

theorem keyNumberToString_out_of_range (key : ℤ) (h : key < 1 ∨ 12 < key) :
    keyNumberToString key = ⟨0, 0⟩ := by
  unfold keyNumberToString listGetZ
  rw [dif_neg]
  · rfl
  · simp only [List.length_cons, List.length_nil, not_and]
    intro h0
    omega

theorem simplify_at_C (m : Option ModeV) :
    (simplifyKeySignature ⟨0, 0⟩ m).1 = ⟨0, 0⟩ := by
  rcases m with _ | mv
  · decide
  · cases mv <;> decide

/-- C5 amended: for a key outside [1,12] the composition stage does not
fail — there is no `InvalidParameterError` anywhere in the code; the
tonic falls back to `'C'` and a Track is still produced. -/
theorem C5_amended_fallback (sin : ℚ → ℚ) (r : ℕ → ℚ) (p : OutputParams)
    (h : p.key < 1 ∨ 12 < p.key) :
    (produce sin r p).key = "C" := by
  have e : (produce sin r p).key = (mkCtx p).tonic.name := rfl
  have e2 : (mkCtx p).tonic =
      (simplifyKeySignature (keyNumberToString p.key)
        (listGetZ modeNames (p.mode - 1))).1 := rfl
  rw [e, e2, keyNumberToString_out_of_range p.key h, simplify_at_C]
  rfl

/-- C5 amended witness at the concrete key 13. -/
theorem C5_amended_fallback_witness :
    (key13Params.key < 1 ∨ 12 < key13Params.key) ∧
    (produce sinZero randZero key13Params).key = "C" :=
  ⟨Or.inr (by norm_num [key13Params]),
   C5_amended_fallback sinZero randZero key13Params (Or.inr (by norm_num [key13Params]))⟩

/-! ### C7 : key-signature simplification -/

/-- C7 counterexample: at key 9 (G#) and mode 6 (aeolian) the code
replaces the tonic by its enharmonic Ab although Ab's *minor*-key
signature (7 flats) has more accidentals than G# minor's (5 sharps):
the aeolian branch compares against the enharmonic's *major*-key
signature, so the claim's same-family "fewer or equal" criterion is
violated. -/
theorem C7_counterexample :
    keyNumberToString 9 = ⟨4, 1⟩ ∧
    listGetZ modeNames (6 - 1) = some .aeolian ∧
    simplifyKeySignature ⟨4, 1⟩ (some .aeolian) = (⟨5, -1⟩, some .minor) ∧
    minorSigLen ⟨4, 1⟩ < minorSigLen ⟨5, -1⟩ := by
  refine ⟨by decide, by decide, by decide, by decide⟩

/-- C7 amended: simplification applies exactly to ionian and aeolian,
renaming them to major/minor; for ionian the tonic moves to its
enharmonic iff the enharmonic's major-key signature has fewer or equal
accidentals, but for aeolian the code compares the enharmonic's
*major*-key signature against the tonic's minor-key signature; all
other modes leave tonic and mode unchanged.  The enharmonic always
denotes the same pitch class. -/
theorem C7_simplification (t : Pc) (m : Option ModeV) :
    (m = some .ionian →
      simplifyKeySignature t m =
        ((if majorSigLen (enharmonic t) ≤ majorSigLen t then enharmonic t else t),
          some .major)) ∧
    (m = some .aeolian →
      simplifyKeySignature t m =
        ((if majorSigLen (enharmonic t) ≤ minorSigLen t then enharmonic t else t),
          some .minor)) ∧
    (m ≠ some .ionian → m ≠ some .aeolian → simplifyKeySignature t m = (t, m)) ∧
    (enharmonic t).chroma % 12 = t.chroma % 12 := by
  refine ⟨?_, ?_, ?_, ?_⟩
  · intro h
    subst h
    unfold simplifyKeySignature simplifyIonian simplifyAeolian
    dsimp only []
    rw [if_pos rfl]
    dsimp only []
    rw [if_neg (show ¬(some ModeV.major = some ModeV.aeolian) by decide)]
  · intro h
    subst h
    unfold simplifyKeySignature simplifyIonian simplifyAeolian
    dsimp only []
    rw [if_neg (show ¬(some ModeV.aeolian = some ModeV.ionian) by decide)]
    dsimp only []
    rw [if_pos rfl]
  · intro h1 h2
    unfold simplifyKeySignature simplifyIonian simplifyAeolian
    dsimp only []
    rw [if_neg h1]
    dsimp only []
    rw [if_neg h2]
  · unfold enharmonic
    split_ifs with h1 h2 h3 h4 <;> simp only [Pc.chroma] <;> omega

/-- C7 witness: C ionian simplifies to (C, major). -/
theorem C7_simplification_witness :
    simplifyKeySignature ⟨0, 0⟩ (some .ionian) = (⟨0, 0⟩, some .major) := by
  rw [(C7_simplification ⟨0, 0⟩ (some .ionian)).1 rfl]
  decide

/-! ### Arrangement length facts (C4) -/

theorem mainIterations_ge (n : ℕ) (hn : 0 < n) : 24 ≤ n * mainIterations n := by
  unfold mainIterations jsCeil
  have hq : (0 : ℚ) < (n : ℚ) := by exact_mod_cast hn
  have h1 : (24 : ℚ) / (n : ℚ) ≤ ((⌈(24 : ℚ) / (n : ℚ)⌉ : ℤ) : ℚ) := Int.le_ceil _
  have hpos : 0 < ⌈(24 : ℚ) / (n : ℚ)⌉ := Int.ceil_pos.mpr (by positivity)
  have h2 : (24 : ℚ) ≤ ((⌈(24 : ℚ) / (n : ℚ)⌉ : ℤ) : ℚ) * (n : ℚ) :=
    (div_le_iff hq).mp h1
  have h3 : ((⌈(24 : ℚ) / (n : ℚ)⌉ : ℤ) : ℚ) = ((⌈(24 : ℚ) / (n : ℚ)⌉.toNat : ℕ) : ℚ) :=
    by exact_mod_cast (Int.toNat_of_nonneg (le_of_lt hpos)).symm
  rw [h3] at h2
  have h4 : (24 : ℚ) ≤ ((⌈(24 : ℚ) / (n : ℚ)⌉.toNat * n : ℕ) : ℚ) := by push_cast; linarith
  have h5 : 24 ≤ ⌈(24 : ℚ) / (n : ℚ)⌉.toNat * n := by exact_mod_cast h4
  rw [Nat.mul_comm]
  exact h5

theorem mainIterations_min (n : ℕ) (hn : 0 < n) (k : ℕ) (hk : 0 < k)
    (h : 24 ≤ n * k) : mainIterations n ≤ k := by
  unfold mainIterations jsCeil
  have hq : (0 : ℚ) < (n : ℚ) := by exact_mod_cast hn
  have h1 : (24 : ℚ) ≤ (n : ℚ) * (k : ℚ) := by exact_mod_cast h
  have h2 : (24 : ℚ) / (n : ℚ) ≤ ((k : ℤ) : ℚ) := by
    rw [div_le_iff hq]
    push_cast
    linarith
  have h3 : ⌈(24 : ℚ) / (n : ℚ)⌉ ≤ (k : ℤ) := Int.ceil_le.mpr h2
  omega

/-- C4: the intro is one measure, the main region is the chord count
times the smallest positive repeat count reaching at least 24 measures,
and the Track's total measure count is the sum intro + main + outro. -/
theorem C4_region_lengths (sin : ℚ → ℚ) (r : ℕ → ℚ) (p : OutputParams)
    (h : p.chords ≠ []) :
    introLength = 1 ∧
    (produce sin r p).numMeasures =
      introLength + mainLength p.chords.length + outroLength p.chords.length ∧
    mainLength p.chords.length = p.chords.length * mainIterations p.chords.length ∧
    24 ≤ p.chords.length * mainIterations p.chords.length ∧
    (∀ k : ℕ, 0 < k → 24 ≤ p.chords.length * k → mainIterations p.chords.length ≤ k) := by
  have hlen : 0 < p.chords.length := List.length_pos.mpr h
  exact ⟨rfl, rfl, rfl, mainIterations_ge _ hlen, fun k hk1 hk2 =>
    mainIterations_min _ hlen k hk1 hk2⟩

unseal Rat.add Rat.mul Rat.inv Rat.sub in
/-- C4 witness: the spec's example (4 chords) has main region
4 × 6 = 24 and total 1 + 24 + outro (= 28). -/
theorem C4_region_lengths_witness :
    exampleParams.chords ≠ [] ∧
    (produce sinZero randZero exampleParams).numMeasures =
      introLength + mainLength exampleParams.chords.length +
        outroLength exampleParams.chords.length ∧
    mainLength exampleParams.chords.length = 24 ∧
    (produce sinZero randZero exampleParams).numMeasures = 28 := by
  refine ⟨by decide, (C4_region_lengths sinZero randZero exampleParams (by decide)).2.1,
    by decide, by decide⟩


/-! ### C2 : rest chords and the rhythm-loop gap -/

theorem addNoteSt_dt (st : PState) (nt : InstrumentNoteV) :
    (addNoteSt st nt).drumbeatTimings = st.drumbeatTimings := rfl

theorem foldl_addNoteSt_dt (l : List InstrumentNoteV) :
    ∀ s : PState, (l.foldl addNoteSt s).drumbeatTimings = s.drumbeatTimings := by
  induction l with
  | nil => intro s; rfl
  | cons x xs ih => intro s; rw [List.foldl_cons, ih]; rfl

theorem foldl_addNote_fn_dt {α : Type} (f : α → InstrumentNoteV) (l : List α) :
    ∀ s : PState,
      (l.foldl (fun s a => addNoteSt s (f a)) s).drumbeatTimings =
        s.drumbeatTimings := by
  induction l with
  | nil => intro s; rfl
  | cons x xs ih => intro s; rw [List.foldl_cons, ih]; rfl

theorem addArpeggioSt_dt (st : PState) (i : Instrument) (ns : List (Option ℤ))
    (td : TimeV) (u : String) (t : TimeV) (v : Option ℚ) :
    (addArpeggioSt st i ns td u t v).drumbeatTimings = st.drumbeatTimings := by
  unfold addArpeggioSt
  exact foldl_addNote_fn_dt _ _ st

theorem iterStep_dt_flag (sin : ℚ → ℚ) (r : ℕ → ℚ) (ctx : ProducerCtx) (iterM : ℚ)
    (acc : PState × Bool) (e : ℕ × ℤ) :
    (iterStep sin r ctx iterM acc e).1.drumbeatTimings =
      acc.1.drumbeatTimings ++
        (if chordEmptyAt ctx e.1 then [(false, TimeV.bars (iterM + (e.1 : ℚ)) 3 0)]
         else if acc.2 then [(true, TimeV.bars (iterM + (e.1 : ℚ)) 0 0)] else []) ∧
    (iterStep sin r ctx iterM acc e).2 = chordEmptyAt ctx e.1 := by
  rcases e with ⟨j, d⟩
  unfold iterStep chordEmptyAt
  by_cases hc : ((listGetZ ctx.chordsTonal ((j : ℕ) : ℤ)).getD restChord).empty
  · rcases hm : ctx.preset.melody with _ | ml <;>
      by_cases hml : ctx.melodies.length = 0 <;>
      simp [hc, hm, hml, endDrumbeatSt, foldl_addNoteSt_dt]
  · rcases hb : ctx.preset.bassLine with _ | bass <;>
      rcases hh : ctx.preset.harmony with _ | h <;>
      rcases ha : ctx.preset.firstBeatArpeggio with _ | a <;>
      rcases hm : ctx.preset.melody with _ | ml <;>
      by_cases hml : ctx.melodies.length = 0 <;>
      rcases hf : acc.2 with _ | _ <;>
      simp [hc, hb, hh, ha, hm, hml, hf, startDrumbeatSt, addNoteSt_dt, addArpeggioSt_dt,
        foldl_addNoteSt_dt, foldl_addNote_fn_dt]

theorem produceIteration_dt (sin : ℚ → ℚ) (r : ℕ → ℚ) (ctx : ProducerCtx) (iterM : ℚ) :
    ∀ (l : List (ℕ × ℤ)) (st : PState) (flag : Bool),
      ((l.foldl (iterStep sin r ctx iterM) (st, flag)).1).drumbeatTimings =
        st.drumbeatTimings ++ dtEvents ctx iterM l flag := by
  intro l
  induction l with
  | nil => intro st flag; simp [dtEvents]
  | cons e rest ih =>
    intro st flag
    rw [List.foldl_cons]
    have hstep := iterStep_dt_flag sin r ctx iterM (st, flag) e
    rcases hpair : iterStep sin r ctx iterM (st, flag) e with ⟨st1, flag1⟩
    rw [hpair] at hstep
    dsimp only [] at hstep
    have h2 := ih st1 flag1
    rw [h2, hstep.1, hstep.2]
    by_cases hc : chordEmptyAt ctx e.1
    · simp [dtEvents, hc]
    · rcases hflag : flag with _ | _ <;> simp [dtEvents, hc, hflag]

theorem dtEvents_end_mem (ctx : ProducerCtx) (iterM : ℚ) :
    ∀ (l : List (ℕ × ℤ)) (flag : Bool) (j : ℕ) (d : ℤ),
      (j, d) ∈ l → chordEmptyAt ctx j = true →
      (false, TimeV.bars (iterM + (j : ℚ)) 3 0) ∈ dtEvents ctx iterM l flag := by
  intro l
  induction l with
  | nil => intro flag j d hmem; exact absurd hmem (List.not_mem_nil _)
  | cons e rest ih =>
    intro flag j d hmem hempty
    rcases List.mem_cons.mp hmem with he | he
    · rw [← he] at *
      simp only [dtEvents]
      rw [if_pos (by simpa using hempty)]
      exact List.mem_cons_self _ _
    · simp only [dtEvents]
      by_cases hc : chordEmptyAt ctx e.1
      · rw [if_pos (by simpa using hc)]
        exact List.mem_cons_of_mem _ (ih true j d he hempty)
      · rw [if_neg (by simpa using hc)]
        exact List.mem_append_right _ (ih false j d he hempty)

theorem dtEvents_start_aux (ctx : ProducerCtx) (iterM : ℚ) :
    ∀ (chords : List ℤ) (i0 k : ℕ),
      i0 ≤ k → k < i0 + chords.length →
      (∀ t, i0 ≤ t → t < k → chordEmptyAt ctx t = true) →
      chordEmptyAt ctx k = false →
      (true, TimeV.bars (iterM + (k : ℚ)) 0 0) ∈
        dtEvents ctx iterM (List.enumFrom i0 chords) true := by
  intro chords
  induction chords with
  | nil =>
    intro i0 k h1 h2 hall hk
    simp at h2
    omega
  | cons c rest ih =>
    intro i0 k h1 h2 hall hk
    rw [List.enumFrom_cons]
    rcases eq_or_lt_of_le h1 with he | hlt
    · subst he
      simp only [dtEvents]
      rw [if_neg (by simpa using hk)]
      exact List.mem_append_left _ (by simp)
    · have hh := hall i0 le_rfl hlt
      simp only [dtEvents]
      rw [if_pos (by simpa using hh)]
      refine List.mem_cons_of_mem _ (ih (i0 + 1) k hlt ?_ ?_ hk)
      · simpa [Nat.add_right_comm] using h2
      · intro t ht1 ht2
        exact hall t (by omega) ht2

theorem dtEvents_start_mem (ctx : ProducerCtx) (iterM : ℚ) :
    ∀ (chords : List ℤ) (i0 : ℕ) (flag : Bool) (j k : ℕ),
      i0 ≤ j → j < k → k < i0 + chords.length →
      chordEmptyAt ctx j = true →
      (∀ t, j < t → t < k → chordEmptyAt ctx t = true) →
      chordEmptyAt ctx k = false →
      (true, TimeV.bars (iterM + (k : ℚ)) 0 0) ∈
        dtEvents ctx iterM (List.enumFrom i0 chords) flag := by
  intro chords
  induction chords with
  | nil =>
    intro i0 flag j k h1 h2 h3 h4 h5 h6
    simp at h3
    omega
  | cons c rest ih =>
    intro i0 flag j k h1 h2 h3 h4 h5 h6
    rw [List.enumFrom_cons]
    rcases eq_or_lt_of_le h1 with he | hlt
    · subst he
      simp only [dtEvents]
      rw [if_pos (by simpa using h4)]
      refine List.mem_cons_of_mem _
        (dtEvents_start_aux ctx iterM rest (i0 + 1) k h2 ?_ ?_ h6)
      · simpa [Nat.add_right_comm] using h3
      · intro t ht1 ht2
        exact h5 t (by omega) ht2
    · simp only [dtEvents]
      by_cases hc : chordEmptyAt ctx i0
      · rw [if_pos (by simpa using hc)]
        refine List.mem_cons_of_mem _ (ih (i0 + 1) true j k hlt h2 ?_ h4 h5 h6)
        simpa [Nat.add_right_comm] using h3
      · rw [if_neg (by simpa using hc)]
        refine List.mem_append_right _ (ih (i0 + 1) false j k hlt h2 ?_ h4 h5 h6)
        simpa [Nat.add_right_comm] using h3

theorem length_modeNotes (m : ModeV) (t : Pc) : (modeNotes m t).length = 7 := by
  simp [modeNotes]

theorem length_modeTriads (m : ModeV) (t : Pc) : (modeTriads m t).length = 7 := by
  simp [modeTriads, modeNotes]

theorem resolveChordDeg_empty (m : ModeV) (t : Pc) (d : ℤ) :
    ((resolveChordDeg (modeTriads m t) (modeNotes m t) d).empty = true) ↔
      (d < 1 ∨ 7 < d) := by
  unfold resolveChordDeg
  by_cases h : 1 ≤ d ∧ d ≤ 7
  · have h1 : 0 ≤ d - 1 ∧ (d - 1).toNat < (modeTriads m t).length := by
      rw [length_modeTriads]; omega
    have h2 : 0 ≤ d - 1 ∧ (d - 1).toNat < (modeNotes m t).length := by
      rw [length_modeNotes]; omega
    unfold listGetZ
    rw [dif_pos h1, dif_pos h2]
    simp [getChord]
    omega
  · have h1 : ¬(0 ≤ d - 1 ∧ (d - 1).toNat < (modeTriads m t).length) := by
      rw [length_modeTriads]; omega
    unfold listGetZ
    rw [dif_neg h1]
    simp [restChord]
    omega

theorem listGetZ_nat {α : Type} (l : List α) (i : ℕ) (hi : i < l.length) :
    listGetZ l (i : ℤ) = some (l.get ⟨i, hi⟩) := by
  unfold listGetZ
  have hcond : 0 ≤ (i : ℤ) ∧ ((i : ℤ)).toNat < l.length :=
    ⟨Int.natCast_nonneg i, by simpa using hi⟩
  rw [dif_pos hcond]
  exact congrArg some (congrArg l.get (Fin.ext (by simp)))

theorem mkCtx_chordsTonal (p : OutputParams) (m : ModeV)
    (hm : (mkCtx p).modeOpt = some m) :
    (mkCtx p).chordsTonal =
      resolveChords (modeTriads m (mkCtx p).tonic) (modeNotes m (mkCtx p).tonic)
        p.chords := by
  unfold mkCtx at hm ⊢
  dsimp only [] at hm ⊢
  rw [hm]

theorem chordEmptyAt_iff (p : OutputParams) (m : ModeV)
    (hm : (mkCtx p).modeOpt = some m) (i : ℕ) (hi : i < p.chords.length) :
    (chordEmptyAt (mkCtx p) i = true) ↔
      (p.chords.getD i 0 < 1 ∨ 7 < p.chords.getD i 0) := by
  unfold chordEmptyAt
  rw [mkCtx_chordsTonal p m hm]
  unfold resolveChords
  have hlen : i < (p.chords.map
      (resolveChordDeg (modeTriads m (mkCtx p).tonic) (modeNotes m (mkCtx p).tonic))).length := by
    simpa using hi
  rw [listGetZ_nat _ i hlen, List.get_map]
  simp only [Option.getD_some]
  rw [show p.chords.getD i 0 = p.chords.get ⟨i, hi⟩ from List.getD_eq_get _ _ hi]
  exact resolveChordDeg_empty m _ _

theorem mem_enumFrom_get {α : Type} :
    ∀ (l : List α) (i0 j : ℕ) (hj : j < l.length),
      (i0 + j, l.get ⟨j, hj⟩) ∈ List.enumFrom i0 l := by
  intro l
  induction l with
  | nil => intro i0 j hj; simp at hj
  | cons x xs ih =>
    intro i0 j hj
    rw [List.enumFrom_cons]
    cases j with
    | zero => simp
    | succ n =>
      have hn : n < xs.length := by simpa using Nat.lt_of_succ_lt_succ hj
      have h2 := ih (i0 + 1) n hn
      have harith : i0 + (n + 1) = (i0 + 1) + n := by omega
      rw [harith]
      exact List.mem_cons_of_mem _ h2

/-- C2 (amended): with a valid mode, a chord slot resolves to the
distinguished rest chord exactly when its degree lies outside [1,7];
for a rest slot `j`, `produceIteration` ends the rhythm loop's
on-window at *beat 3* of that slot's measure (three beats after the
slot's onset, not at the onset), and restarts it at the onset of the
next non-rest slot `k`. -/
theorem C2_rest_gap (sin : ℚ → ℚ) (r : ℕ → ℚ) (p : OutputParams) (m : ModeV)
    (hm : (mkCtx p).modeOpt = some m) (iterM : ℚ) (st : PState) (j k : ℕ)
    (hjlen : j < p.chords.length) (hklen : k < p.chords.length) (hjk : j < k)
    (hjrest : p.chords.getD j 0 < 1 ∨ 7 < p.chords.getD j 0)
    (hbetween : ∀ t, j < t → t < k →
      p.chords.getD t 0 < 1 ∨ 7 < p.chords.getD t 0)
    (hkval : 1 ≤ p.chords.getD k 0 ∧ p.chords.getD k 0 ≤ 7) :
    (∀ i, i < p.chords.length →
      ((chordEmptyAt (mkCtx p) i = true) ↔
        (p.chords.getD i 0 < 1 ∨ 7 < p.chords.getD i 0))) ∧
    (false, TimeV.bars (iterM + (j : ℚ)) 3 0) ∈
      (produceIterationSt sin r (mkCtx p) iterM none st).drumbeatTimings ∧
    (true, TimeV.bars (iterM + (k : ℚ)) 0 0) ∈
      (produceIterationSt sin r (mkCtx p) iterM none st).drumbeatTimings := by
  have hiff : ∀ i, i < p.chords.length →
      ((chordEmptyAt (mkCtx p) i = true) ↔
        (p.chords.getD i 0 < 1 ∨ 7 < p.chords.getD i 0)) :=
    fun i hi => chordEmptyAt_iff p m hm i hi
  have hchords : (mkCtx p).chords = p.chords := rfl
  have hje : chordEmptyAt (mkCtx p) j = true := (hiff j hjlen).mpr hjrest
  have hke : chordEmptyAt (mkCtx p) k = false := by
    cases hck : chordEmptyAt (mkCtx p) k
    · rfl
    · exfalso
      have := (hiff k hklen).mp hck
      omega
  have hchar : (produceIterationSt sin r (mkCtx p) iterM none st).drumbeatTimings =
      st.drumbeatTimings ++
        dtEvents (mkCtx p) iterM (List.enumFrom 0 p.chords) false := by
    unfold produceIterationSt
    exact produceIteration_dt sin r (mkCtx p) iterM _ st false
  refine ⟨hiff, ?_, ?_⟩
  · rw [hchar]
    refine List.mem_append_right _ ?_
    have hmem : (j, p.chords.get ⟨j, hjlen⟩) ∈ List.enumFrom 0 p.chords := by
      have := mem_enumFrom_get p.chords 0 j hjlen
      simpa using this
    exact dtEvents_end_mem (mkCtx p) iterM _ false j _ hmem hje
  · rw [hchar]
    refine List.mem_append_right _ ?_
    refine dtEvents_start_mem (mkCtx p) iterM p.chords 0 false j k
      (Nat.zero_le j) hjk (by simpa using hklen) hje ?_ hke
    intro t ht1 ht2
    exact (hiff t (lt_trans ht2 hklen)).mpr (hbetween t ht1 ht2)

unseal Rat.add Rat.mul Rat.inv Rat.sub in
set_option maxRecDepth 100000 in
/-- C2 counterexample: in the spec's example 4 (`chords:[1,0,5,1]`),
slot 1 of the first main repetition occupies measure 2, so the claim
requires the rhythm loop's on-window to end at the slot's onset `2:0`.
The produced track's drumbeat windows instead stop at `2:3` (beat 3 of
the rest measure) — no window stops at `2:0`. -/
theorem C2_counterexample :
    ((produce sinZero randZero exampleParams).sampleLoops.filter
        (fun l => l.sampleGroupName == "drumloop100")).map SampleLoopV.stopTime =
      [TimeV.bars 2 3 0, TimeV.bars 4 0 0, TimeV.bars 6 3 0, TimeV.bars 8 0 0,
       TimeV.bars 10 3 0, TimeV.bars 12 0 0, TimeV.bars 14 3 0, TimeV.bars 16 0 0,
       TimeV.bars 18 3 0, TimeV.bars 20 0 0, TimeV.bars 22 3 0, TimeV.bars 24 0 0] ∧
    TimeV.bars 2 0 0 ∉
      ((produce sinZero randZero exampleParams).sampleLoops.filter
        (fun l => l.sampleGroupName == "drumloop100")).map SampleLoopV.stopTime := by
  constructor <;> decide

unseal Rat.add Rat.mul Rat.inv Rat.sub in
/-- C2 witness: the amended theorem applied to the example progression,
rest at slot 1, next non-rest at slot 2, first main repetition
(measure base 1). -/
theorem C2_rest_gap_witness :
    (mkCtx exampleParams).modeOpt = some ModeV.major ∧
    (false, TimeV.bars (1 + ((1 : ℕ) : ℚ)) 3 0) ∈
      (produceIterationSt sinZero randZero (mkCtx exampleParams) 1 none
        PState.empty).drumbeatTimings ∧
    (true, TimeV.bars (1 + ((2 : ℕ) : ℚ)) 0 0) ∈
      (produceIterationSt sinZero randZero (mkCtx exampleParams) 1 none
        PState.empty).drumbeatTimings := by
  have hm : (mkCtx exampleParams).modeOpt = some ModeV.major := by decide
  have h := C2_rest_gap sinZero randZero exampleParams .major hm 1 PState.empty 1 2
    (by decide) (by decide) (by decide) (by decide)
    (fun t ht1 ht2 => absurd ht2 (by omega))
    (by decide)
  exact ⟨hm, h.2.1, h.2.2⟩

/-! ### C3 : melody run-length encoding -/

theorem specRuns_nil (s : ℕ) : specRuns s [] = [] := rfl

theorem specRuns_cons (s : ℕ) (c : ℤ) (rest : List ℤ) :
    specRuns s (c :: rest) =
      match specRuns (s + 1) rest with
      | [] => [(c, 1, s)]
      | (v, n, i) :: rs =>
        if v = c then (c, n + 1, s) :: rs else (c, 1, s) :: (v, n, i) :: rs := rfl

theorem rleFold_runsCont :
    ∀ (l : List ℤ) (arr : List (ℤ × ℕ × ℕ)) (v : ℤ) (n s : ℕ),
      (((List.enumFrom (s + n) l).foldl rleStep (arr, some (v, n, s))).1 ++
          ((List.enumFrom (s + n) l).foldl rleStep (arr, some (v, n, s))).2.toList) =
        arr ++ runsCont v n s (specRuns (s + n) l) := by
  intro l
  induction l with
  | nil => intro arr v n s; simp [runsCont, specRuns_nil]
  | cons c rest ih =>
    intro arr v n s
    rw [List.enumFrom_cons, List.foldl_cons]
    by_cases hv : v = c
    · subst hv
      have hstep : rleStep (arr, some (v, n, s)) (s + n, v) = (arr, some (v, n + 1, s)) := by
        simp [rleStep]
      rw [hstep]
      have hidx : s + n + 1 = s + (n + 1) := rfl
      have hmain := ih arr v (n + 1) s
      rw [← hidx] at hmain
      rw [hmain, specRuns_cons]
      rcases hR : specRuns (s + n + 1) rest with _ | ⟨⟨w, m, i⟩, rs⟩
      · dsimp only [runsCont]
        rw [if_pos rfl]
      · dsimp only []
        by_cases hw : w = v
        · subst hw
          rw [if_pos rfl]
          dsimp only [runsCont]
          rw [if_pos rfl, if_pos rfl]
          have harith : n + 1 + m = n + (m + 1) := by omega
          rw [harith]
        · rw [if_neg hw]
          dsimp only [runsCont]
          rw [if_neg hw, if_pos rfl]
    · have hstep : rleStep (arr, some (v, n, s)) (s + n, c) =
          (arr ++ [(v, n, s)], some (c, 1, s + n)) := by
        simp [rleStep, hv]
      rw [hstep]
      have hmain := ih (arr ++ [(v, n, s)]) c 1 (s + n)
      rw [hmain, specRuns_cons]
      have hvc : ¬(c = v) := fun h => hv h.symm
      rcases hR : specRuns (s + n + 1) rest with _ | ⟨⟨w, m, i⟩, rs⟩
      · dsimp only [runsCont]
        rw [if_neg hvc]
        simp [List.append_assoc]
      · dsimp only []
        by_cases hw : w = c
        · subst hw
          rw [if_pos rfl]
          dsimp only [runsCont]
          rw [if_pos rfl, if_neg hvc]
          have harith : 1 + m = m + 1 := by omega
          rw [harith]
          simp [List.append_assoc]
        · rw [if_neg hw]
          dsimp only [runsCont]
          rw [if_neg hw, if_neg hvc]
          simp [List.append_assoc]

theorem jsRuns_eq_specRuns (mel : List ℤ) : jsRuns mel = specRuns 0 mel := by
  cases mel with
  | nil => rfl
  | cons c rest =>
    unfold jsRuns
    have he : (c :: rest).enum = (0, c) :: List.enumFrom 1 rest := rfl
    rw [he, List.foldl_cons]
    have hstep : rleStep ([], none) (0, c) = ([], some (c, 1, 0)) := rfl
    rw [hstep]
    have hmain := rleFold_runsCont rest [] c 1 0
    simp only [Nat.zero_add] at hmain
    rw [hmain, specRuns_cons]
    rcases hR : specRuns 1 rest with _ | ⟨⟨w, m, i⟩, rs⟩
    · simp [runsCont]
    · dsimp only []
      by_cases hw : w = c
      · subst hw
        rw [if_pos rfl]
        dsimp only [runsCont]
        rw [if_pos rfl]
        have harith : 1 + m = m + 1 := by omega
        rw [harith]
        rfl
      · rw [if_neg hw]
        dsimp only [runsCont]
        rw [if_neg hw]
        rfl

theorem runsDecode_specRuns : ∀ (l : List ℤ) (s : ℕ), runsDecode (specRuns s l) = l := by
  intro l
  induction l with
  | nil => intro s; rfl
  | cons c rest ih =>
    intro s
    rw [specRuns_cons]
    have hd := ih (s + 1)
    rcases hR : specRuns (s + 1) rest with _ | ⟨⟨w, m, i⟩, rs⟩ <;> rw [hR] at hd
    · dsimp only []
      simp only [runsDecode, List.foldr_nil] at hd
      simp [runsDecode, ← hd]
    · dsimp only []
      by_cases hw : w = c
      · subst hw
        rw [if_pos rfl]
        simp only [runsDecode, List.foldr_cons] at hd ⊢
        rw [← hd, List.replicate_succ]
        simp
      · rw [if_neg hw]
        simp only [runsDecode, List.foldr_cons] at hd ⊢
        rw [← hd]
        simp

theorem specRuns_chain :
    ∀ (l : List ℤ) (s : ℕ),
      List.Chain' (fun a b : ℤ × ℕ × ℕ => a.1 ≠ b.1) (specRuns s l) := by
  intro l
  induction l with
  | nil => intro s; simp [specRuns_nil]
  | cons c rest ih =>
    intro s
    rw [specRuns_cons]
    have hch := ih (s + 1)
    rcases hR : specRuns (s + 1) rest with _ | ⟨⟨w, m, i⟩, rs⟩ <;> rw [hR] at hch
    · simp
    · dsimp only []
      by_cases hw : w = c
      · subst hw
        rw [if_pos rfl]
        rcases rs with _ | ⟨r2, rs2⟩
        · simp
        · rcases List.chain'_cons.mp hch with ⟨hne, htail⟩
          exact List.chain'_cons.mpr ⟨hne, htail⟩
      · rw [if_neg hw]
        exact List.chain'_cons.mpr ⟨fun h => hw h.symm, hch⟩

theorem specRuns_len_pos :
    ∀ (l : List ℤ) (s : ℕ), ∀ run ∈ specRuns s l, 0 < run.2.1 := by
  intro l
  induction l with
  | nil => intro s run hmem; simp [specRuns_nil] at hmem
  | cons c rest ih =>
    intro s run hmem
    rw [specRuns_cons] at hmem
    have hp := ih (s + 1)
    rcases hR : specRuns (s + 1) rest with _ | ⟨⟨w, m, i⟩, rs⟩ <;> rw [hR] at hmem hp
    · simp at hmem
      subst hmem
      simp
    · dsimp only [] at hmem
      by_cases hw : w = c
      · subst hw
        rw [if_pos rfl] at hmem
        rcases List.mem_cons.mp hmem with he | he
        · subst he; simp
        · exact hp run (List.mem_cons_of_mem _ he)
      · rw [if_neg hw] at hmem
        rcases List.mem_cons.mp hmem with he | he
        · subst he; simp
        · exact hp run he

theorem specRuns_startsOk :
    ∀ (l : List ℤ) (s : ℕ), runsStartsOk s (specRuns s l) = true := by
  intro l
  induction l with
  | nil => intro s; rfl
  | cons c rest ih =>
    intro s
    rw [specRuns_cons]
    have hs := ih (s + 1)
    rcases hR : specRuns (s + 1) rest with _ | ⟨⟨w, m, i⟩, rs⟩ <;> rw [hR] at hs
    · simp [runsStartsOk]
    · simp only [runsStartsOk, Bool.and_eq_true, beq_iff_eq] at hs
      dsimp only []
      by_cases hw : w = c
      · subst hw
        rw [if_pos rfl]
        simp only [runsStartsOk, Bool.and_eq_true, beq_iff_eq]
        refine ⟨trivial, ?_⟩
        have harith : s + (m + 1) = s + 1 + m := by omega
        rw [harith]
        exact hs.2
      · rw [if_neg hw]
        simp only [runsStartsOk, Bool.and_eq_true, beq_iff_eq]
        exact ⟨trivial, hs.1, hs.2⟩

/-- C3 (amended): the melody `reduce` groups a slot's melody sequence
into exactly its maximal runs of consecutive equal entries (decode,
adjacent-distinctness, positive lengths and start indices certified),
and each run emits at most one note, at the run's first position; every
emitted note has the *fixed* duration `'4n'` (the run length is not
used), and a run is silent exactly when the JS remainder of its value
mod 7 is negative — so entry 0 (and negative multiples of 7) produce a
note, while other negative entries produce silence. -/
theorem C3_melody_rle (ml : LayerSpec) (mo : Bool) (sp : List ℤ) (measure : ℚ)
    (mel : List ℤ) :
    melodySlotNotes ml mo sp measure mel =
      (specRuns 0 mel).filterMap (noteOfRun ml mo sp measure) ∧
    runsDecode (specRuns 0 mel) = mel ∧
    List.Chain' (fun a b : ℤ × ℕ × ℕ => a.1 ≠ b.1) (specRuns 0 mel) ∧
    (∀ run ∈ specRuns 0 mel, 0 < run.2.1) ∧
    runsStartsOk 0 (specRuns 0 mel) = true ∧
    (∀ nt ∈ melodySlotNotes ml mo sp measure mel,
      nt.duration = TimeV.nota 4 "n") ∧
    (∀ run ∈ specRuns 0 mel,
      ((noteOfRun ml mo sp measure run).isSome ↔ 0 ≤ jsRem run.1 7) ∧
      (∀ nt, noteOfRun ml mo sp measure run = some nt →
        nt.time = TimeV.bars measure 0 (2 * (run.2.2 : ℚ)))) := by
  refine ⟨?_, runsDecode_specRuns mel 0, specRuns_chain mel 0,
    specRuns_len_pos mel 0, specRuns_startsOk mel 0, ?_, ?_⟩
  · unfold melodySlotNotes
    rw [jsRuns_eq_specRuns]
  · intro nt hnt
    unfold melodySlotNotes at hnt
    rcases List.mem_filterMap.mp hnt with ⟨run, _, hsome⟩
    unfold noteOfRun at hsome
    by_cases hge : 0 ≤ (mapNote run.1).1
    · rw [if_pos hge] at hsome
      cases hsome
      rfl
    · rw [if_neg hge] at hsome
      cases hsome
  · intro run _
    constructor
    · unfold noteOfRun
      by_cases hge : 0 ≤ (mapNote run.1).1
      · rw [if_pos hge]
        simpa [mapNote] using hge
      · rw [if_neg hge]
        simpa [mapNote] using hge
    · intro nt hsome
      unfold noteOfRun at hsome
      by_cases hge : 0 ≤ (mapNote run.1).1
      · rw [if_pos hge] at hsome
        cases hsome
        rfl
      · rw [if_neg hge] at hsome
        cases hsome

unseal Rat.add Rat.mul Rat.inv Rat.sub in
/-- C3 counterexample: a maximal run of three `0` entries — which the
claim says must produce silence (non-positive), or, had it produced a
note, one of duration 3 units — produces exactly one note with the
fixed duration `'4n'`. -/
theorem C3_counterexample :
    melodySlotNotes ⟨.Piano, 1, some (1/2)⟩ false
        (modeNotesPitched .major ⟨0, 0⟩) 3 [0, 0, 0] =
      [{ instrument := .Piano, pitch := .one (some 60),
         duration := .nota 4 "n", time := .bars 3 0 0,
         velocity := some (1/2) }] := by
  decide

unseal Rat.add Rat.mul Rat.inv Rat.sub in
/-- C3 witness: the amended theorem applied at the melody `[5,5,2]`,
whose maximal runs are `(5,2,0)` and `(2,1,2)`. -/
theorem C3_melody_rle_witness :
    melodySlotNotes ⟨.Piano, 1, some (1/2)⟩ false
        (modeNotesPitched .major ⟨0, 0⟩) 3 [5, 5, 2] =
      (specRuns 0 [5, 5, 2]).filterMap
        (noteOfRun ⟨.Piano, 1, some (1/2)⟩ false
          (modeNotesPitched .major ⟨0, 0⟩) 3) ∧
    specRuns 0 [5, 5, 2] = [(5, 2, 0), (2, 1, 2)] := by
  refine ⟨(C3_melody_rle ⟨.Piano, 1, some (1/2)⟩ false
    (modeNotesPitched .major ⟨0, 0⟩) 3 [5, 5, 2]).1, by decide⟩

/-! ### C1 : determinism of `produce` -/

/-- A seeded `randomFromInterval` call never reads the unseeded system
randomness: its result only depends on the seed (through `Math.sin`). -/
theorem randomFromInterval_seeded (sin : ℚ → ℚ) (lo hi : ℤ) (s : ℚ) (x : ℚ) :
    randomFromInterval sin lo hi (some s) x =
      randomFromInterval sin lo hi (some s) 0 := rfl

theorem iterStep_rand (sin : ℚ → ℚ) (r : ℕ → ℚ) (ctx : ProducerCtx) (iterM : ℚ) :
    iterStep sin r ctx iterM = iterStep sin randZero ctx iterM := by
  funext acc e
  simp only [iterStep, randomFromInterval_seeded, randZero]

theorem produceIterationSt_rand (sin : ℚ → ℚ) (r : ℕ → ℚ) (ctx : ProducerCtx)
    (iterM : ℚ) (cutoff : Option ℕ) (st : PState) :
    produceIterationSt sin r ctx iterM cutoff st =
      produceIterationSt sin randZero ctx iterM cutoff st := by
  unfold produceIterationSt
  rw [iterStep_rand sin r ctx iterM]

theorem produceMainSt_rand (sin : ℚ → ℚ) (r : ℕ → ℚ) (ctx : ProducerCtx)
    (st : PState) :
    produceMainSt sin r ctx st = produceMainSt sin randZero ctx st := by
  unfold produceMainSt
  simp only [produceIterationSt_rand]

theorem produceFxSt_rand (sin : ℚ → ℚ) (r : ℕ → ℚ) (ctx : ProducerCtx)
    (numMeasures : ℕ) (st : PState) :
    produceFxSt sin r ctx numMeasures st =
      produceFxSt sin randZero ctx numMeasures st := by
  simp only [produceFxSt, getRandomSample, randomFromInterval_seeded, randZero]

theorem selectDrumbeatPair_rand (sin : ℚ → ℚ) (r : ℕ → ℚ) (bpm energy : ℚ) :
    selectDrumbeatPair sin r bpm energy =
      selectDrumbeatPair sin randZero bpm energy := by
  simp only [selectDrumbeatPair, getRandomSample, randomFromInterval_seeded, randZero]

theorem produce_rand (sin : ℚ → ℚ) (r : ℕ → ℚ) (p : OutputParams) :
    produce sin r p = produce sin randZero p := by
  simp only [produce, produceMainSt_rand, produceIterationSt_rand, produceFxSt_rand,
    selectDrumbeatPair_rand, randomFromInterval_seeded, randZero]

/-- C1: `produce` is a deterministic function of the parameter vector
(and of the fixed `Math.sin` function): its result — the whole Track,
with its measure count, ordered sample-loop and note lists, samples,
color, title, bpm, tonic and mode — does not depend on the unseeded
system randomness oracle.  (The drumbeat selection this relies on is
spec-modelled: see `selectDrumbeatPair`.) -/
theorem C1_produce_deterministic (sin : ℚ → ℚ) (r1 r2 : ℕ → ℚ) (p : OutputParams)
    (h1 : p.chords ≠ []) (h2 : p.melodies.length = p.chords.length) :
    produce sin r1 p = produce sin r2 p := by
  rw [produce_rand sin r1 p, produce_rand sin r2 p]

/-- C1 witness: two concrete, distinct system-randomness oracles give
the same Track on the spec's example input. -/
theorem C1_produce_deterministic_witness :
    exampleParams.chords ≠ [] ∧
    exampleParams.melodies.length = exampleParams.chords.length ∧
    produce sinZero randZero exampleParams = produce sinZero randHalf exampleParams :=
  ⟨by decide, by decide,
   C1_produce_deterministic sinZero randZero randHalf exampleParams
     (by decide) (by decide)⟩

end Ambient
